import Mathlib

/-!
Verification development for the hominio capability-based authorization
engine.  The data model and the management operations are embedded from
`libs/hominio-caps/src/management.ts`, the wallet admin routes
(`services/wallet/src/routes/api/admin/capability-groups/...`) and the
auth-context module (`isAdmin` / `requireAdmin`).  The storage layer
(`storage.ts`) and the verification engine (`verification.ts`) are not part
of the provided sources; they are modelled from the specification (sections
4.2 and 4.3) and are marked as such on each definition.
-/

namespace Hominio

/-- Actions are a fixed enumeration (spec section 3). -/
inductive Action where
  | read
  | write
  | create
  | update
  | delete
  | admin
  | delegate
deriving DecidableEq, Repr

/-- Hierarchical resource address.  The TypeScript columns are
`resource_type`, `resource_namespace`, `resource_id`; the namespace field is
called `ns` here because `namespace` is a Lean keyword. -/
structure Resource where
  kind : String
  ns : String
  id : Option String
deriving DecidableEq, Repr

/-- Optional capability conditions: expiry timestamp and source-IP
constraint (spec section 3; timestamps are abstract Nat instants). -/
structure Conditions where
  expiresAt : Option Nat
  sourceIp : Option String
deriving DecidableEq, Repr

/-- A stored capability row.  `requestId` is the originating
capability-request id and `delegation` the `metadata.delegation` parent
capability id; `issuedAt` is the issued-at timestamp from `metadata`. -/
structure Capability where
  id : String
  principal : String
  resource : Resource
  actions : List Action
  conditions : Option Conditions
  issuer : String
  issuedAt : Nat
  requestId : Option String
  delegation : Option String
deriving DecidableEq, Repr

/-- Status of a capability request: a three-state machine. -/
inductive ReqStatus where
  | pending
  | approved
  | rejected
deriving DecidableEq, Repr

/-- A capability request row (table `capability_requests`). -/
structure CapabilityRequest where
  id : String
  requester_principal : String
  resource : Resource
  actions : List Action
  ownerId : String
  status : ReqStatus
deriving DecidableEq, Repr

/-- A capability group row (table `capability_groups`). -/
structure CapabilityGroup where
  id : String
  name : String
  title : String
deriving DecidableEq, Repr

/-- A group-membership join row (table `capability_group_members`,
linking a group id to a capability id). -/
structure MemberRow where
  groupId : String
  capabilityId : String
deriving DecidableEq, Repr

/-- The capability store: the tables owned by the persistence layer, plus a
counter used to generate fresh ids (standing in for `gen_random_uuid`). -/
structure Store where
  capabilities : List Capability
  requests : List CapabilityRequest
  groups : List CapabilityGroup
  members : List MemberRow
  nextId : Nat
deriving DecidableEq, Repr

/-- Error taxonomy of the engine (spec section 7); the TypeScript code
throws `Error` values whose messages correspond to these cases. -/
inductive CapsError where
  | validationError
  | unauthorized
  | notFound
  | invalidState
deriving DecidableEq, Repr

/-- Fresh id for a newly inserted capability row. -/
def freshCapabilityId (s : Store) : String :=
  "cap-" ++ toString s.nextId

/-- Modelled from the spec: `createCapability` of `storage.ts` (not under
the provided sources).  Spec section 4.2: create fails with
`ValidationError` if the action set is empty; duplicates in the action set
are collapsed (section 3); the write appends one row atomically. -/
def createCapability (s : Store) (principal : String) (resource : Resource)
    (actions : List Action) (issuer : String) (conditions : Option Conditions)
    (requestId : Option String) (now : Nat) :
    Except CapsError (Capability × Store) :=
  if actions = [] then .error .validationError
  else
    let cap : Capability :=
      { id := freshCapabilityId s
        principal := principal
        resource := resource
        actions := actions.dedup
        conditions := conditions
        issuer := issuer
        issuedAt := now
        requestId := requestId
        delegation := none }
    .ok (cap, { s with capabilities := s.capabilities ++ [cap],
                       nextId := s.nextId + 1 })

/-- Modelled from the spec: `getCapability` of `storage.ts` (fetch-by-id,
spec section 4.2). -/
def getCapability (s : Store) (capabilityId : String) : Option Capability :=
  s.capabilities.find? (fun c => c.id = capabilityId)

/-- Modelled from the spec: `deleteCapability` of `storage.ts`
(delete-by-id, spec section 4.2: idempotent, deleting a non-existent id is
not an error). -/
def deleteCapability (s : Store) (capabilityId : String) : Store :=
  { s with capabilities := s.capabilities.filter (fun c => ¬ c.id = capabilityId) }

/-- Modelled from the spec: `getCapabilityRequest` of `storage.ts`. -/
def getCapabilityRequest (s : Store) (requestId : String) :
    Option CapabilityRequest :=
  s.requests.find? (fun r => r.id = requestId)

/-- Modelled from the spec: `updateCapabilityRequestStatus` of
`storage.ts`: sets the status of the request with the given id. -/
def updateCapabilityRequestStatus (s : Store) (requestId : String)
    (st : ReqStatus) : Store :=
  { s with requests :=
      s.requests.map (fun r => if r.id = requestId then { r with status := st } else r) }

/-- Status of a stored request, when it exists. -/
def requestStatus (s : Store) (requestId : String) : Option ReqStatus :=
  (getCapabilityRequest s requestId).map (fun r => r.status)

/-- All capabilities held directly by a principal. -/
def capsForPrincipal (s : Store) (p : String) : List Capability :=
  s.capabilities.filter (fun c => c.principal = p)

/-- Modelled from the spec: expansion of a capability group to its member
capabilities, via the `capability_group_members` join table (spec sections
3 and 4.3 step 1). -/
def groupMemberCaps (s : Store) (groupName : String) : List Capability :=
  match s.groups.find? (fun g => g.name = groupName) with
  | none => []
  | some g =>
      (s.members.filter (fun m => m.groupId = g.id)).filterMap
        (fun m => s.capabilities.find? (fun c => c.id = m.capabilityId))

/-- Modelled from the spec: candidate list of section 4.3 step 1 — the
principal's direct capabilities plus, for every `group`-kind capability it
holds, the member capabilities of that group. -/
def candidateCaps (s : Store) (p : String) : List Capability :=
  let direct := capsForPrincipal s p
  direct ++
    (direct.filter (fun c => c.resource.kind = "group")).flatMap
      (fun c => groupMemberCaps s c.resource.ns)

/-- Modelled from the spec: resource matching of section 4.3 step 2 with
the one-way wildcard rule of section 4.1 — a candidate id that is absent or
the literal star covers every target, a concrete candidate id covers only
the identical concrete target id. -/
def resourceCovers (cand target : Resource) : Bool :=
  decide (cand.kind = target.kind) && decide (cand.ns = target.ns) &&
    match cand.id with
    | none => true
    | some cid =>
        if cid = "*" then true
        else match target.id with
          | some tid => decide (cid = tid)
          | none => false

/-- Modelled from the spec: condition evaluation of section 4.3 step 4 —
an expired capability is discarded, and an IP-restricted capability is
discarded unless the caller's IP is supplied and matches. -/
def conditionsOk (c : Capability) (now : Nat) (ip : Option String) : Bool :=
  match c.conditions with
  | none => true
  | some cond =>
      (match cond.expiresAt with
       | none => true
       | some t => decide (now ≤ t)) &&
      (match cond.sourceIp with
       | none => true
       | some cip =>
           match ip with
           | some i => decide (i = cip)
           | none => false)

/-- Modelled from the spec: the surviving candidates after the filters of
section 4.3 steps 2-4 (the usage-limit step 5 concerns the quota tracker
and is outside the claims treated here). -/
def survivingCaps (s : Store) (p : String) (r : Resource) (a : Action)
    (now : Nat) (ip : Option String) : List Capability :=
  (candidateCaps s p).filter
    (fun c => resourceCovers c.resource r && decide (a ∈ c.actions) &&
              conditionsOk c now ip)

/-- Whether a surviving candidate matches the target id exactly (used for
the tie-break of section 4.3 step 6). -/
def exactIdMatch (c : Capability) (target : Resource) : Bool :=
  decide (c.resource.id = target.id) && decide (¬ c.resource.id = some "*") &&
    decide (¬ c.resource.id = none)

/-- Modelled from the spec: tie-break of section 4.3 step 6 — prefer an
exact-id match over a wildcard match, then the most-recently-issued. -/
def pickBest (surv : List Capability) (target : Resource) : Option Capability :=
  let exacts := surv.filter (fun c => exactIdMatch c target)
  let pool := if exacts.isEmpty then surv else exacts
  pool.foldl
    (fun best c =>
      match best with
      | none => some c
      | some b => if b.issuedAt < c.issuedAt then some c else some b)
    none

/-- Decision returned by the verification engine. -/
structure Decision where
  allowed : Bool
  matchedCapabilityId : Option String
deriving DecidableEq, Repr

/-- Modelled from the spec: `checkCapability` of `verification.ts` (not
under the provided sources) — the default-deny algorithm of section 4.3. -/
def checkCapability (s : Store) (p : String) (r : Resource) (a : Action)
    (now : Nat) (ip : Option String) : Decision :=
  match pickBest (survivingCaps s p r a now ip) r with
  | none => { allowed := false, matchedCapabilityId := none }
  | some c => { allowed := true, matchedCapabilityId := some c.id }

/-- The deny decision. -/
def denyDecision : Decision := { allowed := false, matchedCapabilityId := none }

/-- The empty store. -/
def emptyStore : Store :=
  { capabilities := [], requests := [], groups := [], members := [], nextId := 0 }

/-- Embedded from `management.ts` lines 27-52: `grantCapability` performs
no authorization check of its own (the source comments read `For now, we
will trust the caller to verify this`); it creates one capability row via
`createCapability` and returns its id. -/
def grantCapability (issuer principal : String) (resource : Resource)
    (actions : List Action) (conditions : Option Conditions) (now : Nat)
    (s : Store) : Except CapsError (String × Store) :=
  match createCapability s principal resource actions issuer conditions none now with
  | .error e => .error e
  | .ok (cap, s1) => .ok (cap.id, s1)

/-- Embedded from `management.ts` lines 59-73: `revokeCapability` fetches
the capability, throws `Capability not found` when it does not exist, and
otherwise deletes exactly that row (no cascade appears in the source). -/
def revokeCapability (revoker : String) (capabilityId : String) (s : Store) :
    Except CapsError Store :=
  match getCapability s capabilityId with
  | none => .error .notFound
  | some _ => .ok (deleteCapability s capabilityId)

/-- Embedded from `management.ts` lines 108-144, first half of
`approveCapabilityRequest`: look the request up (`Capability request not
found`), require `pending` status (`Capability request is not pending`),
then create the capability for the request's requester with the request's
resource and actions.  The status transition happens afterwards. -/
def approveCreateStep (approver : String) (requestId : String)
    (conditions : Option Conditions) (now : Nat) (s : Store) :
    Except CapsError (Capability × Store) :=
  match getCapabilityRequest s requestId with
  | none => .error .notFound
  | some req =>
      if req.status = .pending then
        createCapability s req.requester_principal req.resource req.actions
          approver conditions (some requestId) now
      else .error .invalidState

/-- Embedded from `management.ts` lines 108-144: after the capability is
created the request status is set to `approved`, in that order. -/
def approveCapabilityRequest (approver : String) (requestId : String)
    (conditions : Option Conditions) (now : Nat) (s : Store) :
    Except CapsError (String × Store) :=
  match approveCreateStep approver requestId conditions now s with
  | .error e => .error e
  | .ok (cap, s1) =>
      .ok (cap.id, updateCapabilityRequestStatus s1 requestId .approved)

/-- Embedded from `management.ts` lines 149-167: `rejectCapabilityRequest`
requires the request to exist and be `pending`, then sets its status to
`rejected`; it creates nothing. -/
def rejectCapabilityRequest (rejector : String) (requestId : String)
    (s : Store) : Except CapsError Store :=
  match getCapabilityRequest s requestId with
  | none => .error .notFound
  | some req =>
      if req.status = .pending then
        .ok (updateCapabilityRequestStatus s requestId .rejected)
      else .error .invalidState

/-- The group-membership capability rows a principal holds for a group
name: `resource_type` is `group` and `resource_namespace` is the name
(the lookup used at `management.ts` lines 197-203). -/
def membershipCaps (s : Store) (principal groupName : String) :
    List Capability :=
  s.capabilities.filter
    (fun c => c.principal = principal ∧ c.resource.kind = "group" ∧
              c.resource.ns = groupName)

/-- Embedded from `management.ts` lines 176-233: `grantCapabilityGroup`
requires the named group to exist (`not found` error), no-ops when the
principal already holds that group's membership capability, and otherwise
inserts one capability row with `resource_type` `group`,
`resource_namespace` the group name, no `resource_id` and the action list
`[read]`. -/
def grantCapabilityGroup (issuer principal groupName : String) (now : Nat)
    (s : Store) : Except CapsError Store :=
  match s.groups.find? (fun g => g.name = groupName) with
  | none => .error .notFound
  | some group =>
      match s.capabilities.find?
          (fun c => c.principal = principal ∧ c.resource.kind = "group" ∧
                    c.resource.ns = groupName) with
      | some _ => .ok s
      | none =>
          let cap : Capability :=
            { id := freshCapabilityId s
              principal := principal
              resource := { kind := "group", ns := groupName, id := none }
              actions := [.read]
              conditions := none
              issuer := issuer
              issuedAt := now
              requestId := none
              delegation := none }
          .ok { s with capabilities := s.capabilities ++ [cap],
                       nextId := s.nextId + 1 }

/-- Errors of the wallet admin group-members route. -/
inductive MemberErr where
  | missingCapabilityId
  | groupNotFound
  | capabilityNotFound
  | alreadyMember
deriving DecidableEq, Repr

/-- Membership rows for one (group id, capability id) pair. -/
def pairMembers (s : Store) (groupId capabilityId : String) :
    List MemberRow :=
  s.members.filter
    (fun m => m.groupId = groupId ∧ m.capabilityId = capabilityId)

/-- Embedded from the wallet route `capability-groups/.../members/+server.ts`
POST handler (lines 10-71): require a capability id (an empty body value is
falsy and rejected), require the group and the capability to exist, fail
when the pair is already a member, otherwise insert one join row. -/
def addMember (s : Store) (groupId capabilityId : String) :
    Except MemberErr Store :=
  if capabilityId = "" then .error .missingCapabilityId
  else
    match s.groups.find? (fun g => g.id = groupId) with
    | none => .error .groupNotFound
    | some _ =>
        match s.capabilities.find? (fun c => c.id = capabilityId) with
        | none => .error .capabilityNotFound
        | some _ =>
            match s.members.find?
                (fun m => m.groupId = groupId ∧ m.capabilityId = capabilityId) with
            | some _ => .error .alreadyMember
            | none =>
                .ok { s with members :=
                        s.members ++ [{ groupId := groupId, capabilityId := capabilityId }] }

/-- Embedded from the same route's DELETE handler (lines 77-100): remove
every join row of the pair (an unconditioned delete, idempotent). -/
def removeMember (s : Store) (groupId capabilityId : String) : Store :=
  if capabilityId = "" then s
  else
    { s with members :=
        (s.members.filter
          (fun m => ¬ (m.groupId = groupId ∧ m.capabilityId = capabilityId))) }

/-- Operations against the group-members table, for stating the uniqueness
invariant over arbitrary operation sequences. -/
inductive MemberOp where
  | add (groupId capabilityId : String)
  | remove (groupId capabilityId : String)

/-- Apply one member operation; a failing add leaves the table unchanged
(the route returns an error response without inserting). -/
def applyMemberOp (s : Store) (op : MemberOp) : Store :=
  match op with
  | .add g c =>
      match addMember s g c with
      | .ok s1 => s1
      | .error _ => s
  | .remove g c => removeMember s g c

/-- Apply a sequence of member operations, oldest first. -/
def applyMemberOps (s : Store) (ops : List MemberOp) : Store :=
  ops.foldl applyMemberOp s

/-- Each (group id, capability id) pair appears at most once in the
membership table. -/
def UniquePairs (s : Store) : Prop :=
  ∀ g c, (pairMembers s g c).length ≤ 1

/-- Management operations on capability requests, for stating the request
state machine over arbitrary operation sequences. -/
inductive MgmtOp where
  | approve (approver requestId : String) (conditions : Option Conditions) (now : Nat)
  | reject (rejector requestId : String)

/-- Apply one management operation; a thrown error leaves the store
unchanged (the source throws before any write in those cases). -/
def applyMgmtOp (s : Store) (op : MgmtOp) : Store :=
  match op with
  | .approve a rid cond now =>
      match approveCapabilityRequest a rid cond now s with
      | .ok (_, s1) => s1
      | .error _ => s
  | .reject rj rid =>
      match rejectCapabilityRequest rj rid s with
      | .ok s1 => s1
      | .error _ => s

/-- Apply a sequence of management operations, oldest first. -/
def applyMgmtOps (s : Store) (ops : List MgmtOp) : Store :=
  ops.foldl applyMgmtOp s

/-- Authentication data extracted from a session, embedded from the auth
context module (`isAdmin` and `requireAdmin`). -/
structure AuthData where
  sub : String
  isAdminFlag : Bool
deriving DecidableEq, Repr

/-- Authentication errors thrown by `requireAuth` and `requireAdmin`. -/
inductive AuthErr where
  | unauthorizedAuth
  | forbidden
deriving DecidableEq, Repr

/-- Embedded from the auth module: `isAdmin(userId)` returns false when the
user id is missing or empty or the `ADMIN` environment value is missing or
empty (JavaScript truthiness of `!userId` and `!process.env.ADMIN`), and
otherwise compares the two strings for equality.  The environment value is
`none` when the variable is unset; an empty string is a set-but-falsy
value. -/
def isAdmin (userId : Option String) (adminEnv : Option String) : Bool :=
  match userId, adminEnv with
  | some u, some a =>
      if u = "" ∨ a = "" then false else decide (u = a)
  | _, _ => false

/-- Embedded from the auth module: `extractAuthData` yields the session
user's id and admin flag, or nothing for an anonymous caller. -/
def extractAuthData (sessionUserId : Option String)
    (adminEnv : Option String) : Option AuthData :=
  sessionUserId.map (fun uid => { sub := uid, isAdminFlag := isAdmin (some uid) adminEnv })

/-- Embedded from the auth module: `requireAuth` throws `Unauthorized` when
there is no session. -/
def requireAuth (sessionUserId : Option String) (adminEnv : Option String) :
    Except AuthErr AuthData :=
  match extractAuthData sessionUserId adminEnv with
  | none => .error .unauthorizedAuth
  | some d => .ok d

/-- Embedded from the auth module: `requireAdmin` is `requireAuth` followed
by a `Forbidden` throw when the admin flag is false. -/
def requireAdmin (sessionUserId : Option String) (adminEnv : Option String) :
    Except AuthErr AuthData :=
  match requireAuth sessionUserId adminEnv with
  | .error e => .error e
  | .ok d => if d.isAdminFlag then .ok d else .error .forbidden

/-- A principal that holds zero capabilities has an empty candidate list. -/
theorem candidateCaps_eq_nil {s : Store} {p : String}
    (h : capsForPrincipal s p = []) : candidateCaps s p = [] := by
  simp [candidateCaps, h]

/-- C1: default deny — for every principal holding zero capabilities
(hence none directly and none reachable through a group, since group
expansion starts from the principal's own capability rows), `checkCapability`
returns the deny decision for every resource, action, time and source IP. -/
theorem check_default_deny (s : Store) (p : String) (r : Resource)
    (a : Action) (now : Nat) (ip : Option String)
    (h : capsForPrincipal s p = []) :
    checkCapability s p r a now ip = denyDecision := by
  have hc : candidateCaps s p = [] := candidateCaps_eq_nil h
  simp [checkCapability, survivingCaps, hc, pickBest, denyDecision]

/-- Witness for C1 at a concrete input: the empty store, principal
`user:alice`, a concrete resource and the read action. -/
theorem check_default_deny_witness :
    capsForPrincipal emptyStore "user:alice" = [] ∧
    checkCapability emptyStore "user:alice"
      { kind := "data", ns := "projects", id := some "p1" } Action.read 0 none
      = denyDecision :=
  ⟨rfl, check_default_deny emptyStore "user:alice"
    { kind := "data", ns := "projects", id := some "p1" } Action.read 0 none rfl⟩

/-- A sample concrete resource used by several concrete stores below. -/
def rProjects : Resource := { kind := "data", ns := "projects", id := some "p1" }

/-- C2 counterexample: in the empty store the issuer `user:alice` holds zero
capabilities — in particular no `admin` capability for the resource, as the
deny decision of `checkCapability` at action `admin` shows — yet
`grantCapability` succeeds and creates a capability row instead of failing
with `Unauthorized`, because the source performs no authorization check. -/
theorem grant_without_admin_succeeds_cex :
    capsForPrincipal emptyStore "user:alice" = [] ∧
    checkCapability emptyStore "user:alice" rProjects Action.admin 0 none
      = denyDecision ∧
    grantCapability "user:alice" "user:bob" rProjects [Action.read] none 0
      emptyStore =
      .ok ("cap-0",
        { capabilities :=
            [{ id := "cap-0", principal := "user:bob", resource := rProjects,
               actions := [Action.read], conditions := none,
               issuer := "user:alice", issuedAt := 0, requestId := none,
               delegation := none }],
          requests := [], groups := [], members := [], nextId := 1 }) := by
  refine ⟨rfl, rfl, ?_⟩
  rfl

/-- C2 as amended: `grantCapability` performs no authorization check at all
— for every issuer (whether or not it holds an `admin` capability), every
principal, resource and non-empty action list it succeeds, appending
exactly one capability row whose holder, resource, issuer and action set
are the given ones; authorization is left to the caller. -/
theorem grantCapability_always_creates (issuer principal : String)
    (r : Resource) (actions : List Action) (cond : Option Conditions)
    (now : Nat) (s : Store) (h : actions ≠ []) :
    ∃ cap s1,
      grantCapability issuer principal r actions cond now s = .ok (cap.id, s1) ∧
      s1.capabilities = s.capabilities ++ [cap] ∧
      cap.principal = principal ∧ cap.resource = r ∧ cap.issuer = issuer ∧
      (∀ a, a ∈ cap.actions ↔ a ∈ actions) := by
  unfold grantCapability createCapability
  rw [if_neg h]
  exact ⟨_, _, rfl, rfl, rfl, rfl, rfl, fun a => List.mem_dedup⟩

/-- Witness for the amended C2 at a concrete input: granting read on a
concrete resource in the empty store, issued by a principal that holds
nothing. -/
theorem grantCapability_always_creates_witness :
    ∃ cap s1,
      grantCapability "user:alice" "user:bob" rProjects [Action.read] none 0
        emptyStore = .ok (cap.id, s1) ∧
      s1.capabilities = emptyStore.capabilities ++ [cap] ∧
      cap.principal = "user:bob" ∧ cap.resource = rProjects ∧
      cap.issuer = "user:alice" ∧
      (∀ a, a ∈ cap.actions ↔ a ∈ [Action.read]) :=
  grantCapability_always_creates "user:alice" "user:bob" rProjects
    [Action.read] none 0 emptyStore (by simp)

/-- Root capability of the delegation example: held by `user:alice`. -/
def c3Root : Capability :=
  { id := "c1", principal := "user:alice", resource := rProjects,
    actions := [Action.read, Action.delegate], conditions := none,
    issuer := "user:admin", issuedAt := 0, requestId := none,
    delegation := none }

/-- Delegated child capability: its `metadata.delegation` references the
root capability `c1`. -/
def c3Child : Capability :=
  { id := "c2", principal := "user:bob", resource := rProjects,
    actions := [Action.read], conditions := none, issuer := "user:alice",
    issuedAt := 1, requestId := none, delegation := some "c1" }

/-- Store holding the delegation root and its delegated child. -/
def c3Store : Store :=
  { capabilities := [c3Root, c3Child], requests := [], groups := [],
    members := [], nextId := 2 }

/-- C3 counterexample: revoking the root capability `c1` deletes only `c1`;
the delegated child `c2`, whose `metadata.delegation` references `c1`,
remains stored — the source performs a single delete and no cascade, so the
claimed subtree deletion fails at this input. -/
theorem revoke_no_cascade_cex :
    c3Child.delegation = some c3Root.id ∧
    revokeCapability "user:alice" "c1" c3Store =
      .ok { capabilities := [c3Child], requests := [], groups := [],
            members := [], nextId := 2 } ∧
    c3Child ∈ [c3Child] := by
  exact ⟨rfl, rfl, by simp⟩

/-- C3 as amended: for every stored capability c, revoke deletes exactly c
— the resulting table is the old one with the rows of that id filtered out
— and every other capability, in particular every capability whose
`metadata.delegation` references c, remains stored (no cascade happens). -/
theorem revokeCapability_deletes_only_target (revoker cid : String)
    (s : Store) (c : Capability) (h : getCapability s cid = some c) :
    ∃ s1, revokeCapability revoker cid s = .ok s1 ∧
      s1.capabilities = s.capabilities.filter (fun x => ¬ x.id = cid) ∧
      ∀ x, x ∈ s.capabilities → ¬ x.id = cid → x ∈ s1.capabilities := by
  refine ⟨deleteCapability s cid, ?_, rfl, ?_⟩
  · unfold revokeCapability
    rw [h]
  · intro x hx hne
    simp [deleteCapability, List.mem_filter, hx, hne]

/-- Witness for the amended C3 at the concrete delegation store: revoking
the root keeps the delegated child stored. -/
theorem revokeCapability_deletes_only_target_witness :
    ∃ s1, revokeCapability "user:alice" "c1" c3Store = .ok s1 ∧
      s1.capabilities = c3Store.capabilities.filter (fun x => ¬ x.id = "c1") ∧
      ∀ x, x ∈ c3Store.capabilities → ¬ x.id = "c1" → x ∈ s1.capabilities :=
  revokeCapability_deletes_only_target "user:alice" "c1" c3Store c3Root rfl

/-- C7: for a capability id with no stored row, the management operation
`revokeCapability` fails with `NotFound` (the store is not touched — no new
store is produced), while the store's own delete-by-id on the same id is an
idempotent no-op returning the store unchanged. -/
theorem revoke_missing_notFound_delete_idempotent (revoker cid : String)
    (s : Store) (h : getCapability s cid = none) :
    revokeCapability revoker cid s = .error .notFound ∧
    deleteCapability s cid = s := by
  constructor
  · unfold revokeCapability
    rw [h]
  · unfold deleteCapability
    have hall : ∀ x ∈ s.capabilities, ¬ x.id = cid := by
      intro x hx
      have := List.find?_eq_none.mp h x hx
      simpa using this
    have hfil : s.capabilities.filter (fun x => ¬ x.id = cid) = s.capabilities :=
      List.filter_eq_self.mpr (fun a ha => by simpa using hall a ha)
    rw [hfil]

/-- Witness for C7 at a concrete input: the empty store and a missing id. -/
theorem revoke_missing_notFound_delete_idempotent_witness :
    revokeCapability "user:alice" "nope" emptyStore = .error .notFound ∧
    deleteCapability emptyStore "nope" = emptyStore :=
  revoke_missing_notFound_delete_idempotent "user:alice" "nope" emptyStore rfl

/-- C9: every capability created by `grantCapabilityGroup` — a row present
after the call that was not present before — has resource kind `group`,
resource namespace equal to the group name, no resource id and the action
list exactly `[read]`. -/
theorem grantGroup_capability_shape (issuer principal groupName : String)
    (now : Nat) (s s' : Store)
    (hok : grantCapabilityGroup issuer principal groupName now s = .ok s')
    (c : Capability) (hmem : c ∈ s'.capabilities)
    (hnew : c ∉ s.capabilities) :
    c.resource.kind = "group" ∧ c.resource.ns = groupName ∧
    c.resource.id = none ∧ c.actions = [Action.read] := by
  unfold grantCapabilityGroup at hok
  cases hg : s.groups.find? (fun g => g.name = groupName) with
  | none => rw [hg] at hok; cases hok
  | some g =>
    rw [hg] at hok
    cases he : s.capabilities.find?
        (fun c => c.principal = principal ∧ c.resource.kind = "group" ∧
                  c.resource.ns = groupName) with
    | some old =>
      rw [he] at hok
      cases hok
      exact absurd hmem hnew
    | none =>
      rw [he] at hok
      cases hok
      simp only [List.mem_append, List.mem_singleton] at hmem
      rcases hmem with hold | hcap
      · exact absurd hold hnew
      · subst hcap
        exact ⟨rfl, rfl, rfl, rfl⟩

/-- Store with one capability group named `tier` and no capabilities. -/
def c9Store : Store :=
  { capabilities := [], requests := [],
    groups := [{ id := "g1", name := "tier", title := "Tier" }],
    members := [], nextId := 0 }

/-- The membership capability row `grantCapabilityGroup` inserts in the
concrete store above. -/
def c9NewCap : Capability :=
  { id := "cap-0", principal := "user:bob",
    resource := { kind := "group", ns := "tier", id := none },
    actions := [Action.read], conditions := none, issuer := "user:admin",
    issuedAt := 5, requestId := none, delegation := none }

/-- Witness for C9 at a concrete input: granting the group `tier` to
`user:bob` inserts a row of the stated shape. -/
theorem grantGroup_capability_shape_witness :
    c9NewCap.resource.kind = "group" ∧ c9NewCap.resource.ns = "tier" ∧
    c9NewCap.resource.id = none ∧ c9NewCap.actions = [Action.read] :=
  grantGroup_capability_shape "user:admin" "user:bob" "tier" 5 c9Store
    { capabilities := [c9NewCap], requests := [],
      groups := [{ id := "g1", name := "tier", title := "Tier" }],
      members := [], nextId := 1 }
    rfl c9NewCap (by simp) (by simp [c9Store])

/-- C10 counterexample: a session whose user id is the empty string while
the `ADMIN` environment value is also the empty string — the two strings
are equal, yet `requireAdmin` raises (`Forbidden`), because the source
treats empty strings as falsy; this falsifies the claim that it raises if
and only if the string equality fails. -/
theorem requireAdmin_equal_empty_strings_cex :
    ("" : String) = "" ∧
    requireAdmin (some "") (some "") = .error .forbidden := ⟨rfl, rfl⟩

/-- C10 as amended: `requireAdmin` throws whenever the `ADMIN` environment
value is unset or empty or the session's user id is absent or empty
(JavaScript falsiness), and otherwise grants admin status exactly when the
authenticated user id string-equals the `ADMIN` value: it succeeds if and
only if both strings are present, non-empty and equal. -/
theorem requireAdmin_ok_iff (sessionUserId adminEnv : Option String) :
    (∃ d, requireAdmin sessionUserId adminEnv = .ok d) ↔
      (∃ u, sessionUserId = some u ∧ adminEnv = some u ∧ ¬ u = "") := by
  cases sessionUserId with
  | none => simp [requireAdmin, requireAuth, extractAuthData]
  | some uid =>
    cases adminEnv with
    | none =>
      simp [requireAdmin, requireAuth, extractAuthData, isAdmin]
    | some a =>
      by_cases hu : uid = ""
      · subst hu
        simp [requireAdmin, requireAuth, extractAuthData, isAdmin]
      · by_cases ha : a = ""
        · subst ha
          constructor
          · intro hd
            exfalso
            obtain ⟨d, hd⟩ := hd
            simp [requireAdmin, requireAuth, extractAuthData, isAdmin] at hd
          · intro hx
            exfalso
            obtain ⟨u, h1, h2, h3⟩ := hx
            injection h2 with h2
            exact h3 h2.symm
        · by_cases heq : uid = a
          · subst heq
            constructor
            · intro _
              exact ⟨uid, rfl, rfl, hu⟩
            · intro _
              refine ⟨{ sub := uid, isAdminFlag := true }, ?_⟩
              simp [requireAdmin, requireAuth, extractAuthData, isAdmin, hu]
          · constructor
            · intro hd
              exfalso
              obtain ⟨d, hd⟩ := hd
              simp [requireAdmin, requireAuth, extractAuthData, isAdmin, hu,
                    ha, heq] at hd
            · intro hx
              exfalso
              obtain ⟨u, h1, h2, h3⟩ := hx
              injection h1 with h1
              injection h2 with h2
              exact heq (h1.trans h2.symm)

/-- A predicate with no witness in a list is found by neither filter nor
find?. -/
theorem find?_eq_none_of_filter_eq_nil {α : Type} {p : α → Bool}
    {l : List α} (h : l.filter p = []) : l.find? p = none := by
  rw [List.find?_eq_none]
  intro x hx
  rw [List.filter_eq_nil_iff] at h
  exact fun hp => h x hx hp

/-- The membership capability row `grantCapabilityGroup` inserts for a
given principal, group name, issue time and store. -/
def groupCapOf (issuer principal groupName : String) (now : Nat) (s : Store) :
    Capability :=
  { id := freshCapabilityId s
    principal := principal
    resource := { kind := "group", ns := groupName, id := none }
    actions := [.read]
    conditions := none
    issuer := issuer
    issuedAt := now
    requestId := none
    delegation := none }

/-- C6: `grantCapabilityGroup` is idempotent — starting from a store where
the named group exists and the principal holds no membership capability for
that group name, the first call succeeds and leaves exactly one
group-membership capability row for the pair, and a second call (any
issuer, any time) succeeds as a no-op on the unchanged store, so the
principal never comes to hold more than one membership capability for the
group name. -/
theorem grantCapabilityGroup_idempotent
    (issuer issuer2 principal groupName : String) (now now2 : Nat) (s : Store)
    (hg : (s.groups.find? (fun g => g.name = groupName)).isSome)
    (h0 : membershipCaps s principal groupName = []) :
    ∃ s1, grantCapabilityGroup issuer principal groupName now s = .ok s1 ∧
      (membershipCaps s1 principal groupName).length = 1 ∧
      grantCapabilityGroup issuer2 principal groupName now2 s1 = .ok s1 := by
  obtain ⟨g, hgf⟩ := Option.isSome_iff_exists.mp hg
  have hnone : s.capabilities.find?
      (fun c => c.principal = principal ∧ c.resource.kind = "group" ∧
                c.resource.ns = groupName) = none := by
    apply find?_eq_none_of_filter_eq_nil
    exact h0
  refine ⟨{ s with
      capabilities := s.capabilities ++ [groupCapOf issuer principal groupName now s],
      nextId := s.nextId + 1 }, ?_, ?_, ?_⟩
  · simp only [grantCapabilityGroup, hgf, hnone, groupCapOf]
  · unfold membershipCaps at h0 ⊢
    simp only [List.filter_append, h0, List.nil_append]
    simp [groupCapOf]
  · have hfind2 : (s.capabilities ++ [groupCapOf issuer principal groupName now s]).find?
        (fun c => c.principal = principal ∧ c.resource.kind = "group" ∧
                  c.resource.ns = groupName) =
        some (groupCapOf issuer principal groupName now s) := by
      rw [List.find?_append, hnone]
      simp [groupCapOf]
    simp only [grantCapabilityGroup, hgf, hfind2]

/-- Store for the C6 witness: the group `tier` exists and `user:bob` holds
nothing. -/
def c6Store : Store :=
  { capabilities := [], requests := [],
    groups := [{ id := "g6", name := "tier6", title := "Tier Six" }],
    members := [], nextId := 0 }

/-- Witness for C6 at a concrete input: granting the group `tier6` to
`user:bob` twice leaves exactly one membership row, the second call being a
no-op. -/
theorem grantCapabilityGroup_idempotent_witness :
    ∃ s1, grantCapabilityGroup "user:adm" "user:bob" "tier6" 3 c6Store = .ok s1 ∧
      (membershipCaps s1 "user:bob" "tier6").length = 1 ∧
      grantCapabilityGroup "user:adm2" "user:bob" "tier6" 9 s1 = .ok s1 :=
  grantCapabilityGroup_idempotent "user:adm" "user:adm2" "user:bob" "tier6"
    3 9 c6Store (by simp [c6Store]) (by simp [membershipCaps, c6Store])

/-- Characterization of a successful `addMember`: the pair was not yet a
member and exactly one join row was appended. -/
theorem addMember_ok {s s' : Store} {g c : String}
    (h : addMember s g c = .ok s') :
    s'.members = s.members ++ [{ groupId := g, capabilityId := c }] ∧
    pairMembers s g c = [] := by
  unfold addMember at h
  by_cases hc0 : c = ""
  · rw [if_pos hc0] at h; cases h
  · rw [if_neg hc0] at h
    cases h1 : s.groups.find? (fun x => x.id = g) with
    | none => rw [h1] at h; cases h
    | some _ =>
      rw [h1] at h
      cases h2 : s.capabilities.find? (fun x => x.id = c) with
      | none => rw [h2] at h; cases h
      | some _ =>
        rw [h2] at h
        cases h3 : s.members.find?
            (fun m => m.groupId = g ∧ m.capabilityId = c) with
        | some _ => rw [h3] at h; cases h
        | none =>
          rw [h3] at h
          cases h
          refine ⟨rfl, ?_⟩
          unfold pairMembers
          rw [List.filter_eq_nil_iff]
          intro a ha
          have := List.find?_eq_none.mp h3 a ha
          simpa using this

/-- A successful `addMember` preserves the at-most-one-row-per-pair
invariant: the inserted pair had zero rows, every other pair is
untouched. -/
theorem uniquePairs_addMember {s s' : Store} {g c : String}
    (h : addMember s g c = .ok s') (hu : UniquePairs s) : UniquePairs s' := by
  obtain ⟨hm, hp⟩ := addMember_ok h
  intro g' c'
  unfold pairMembers
  rw [hm, List.filter_append, List.length_append]
  by_cases hgc : g = g' ∧ c = c'
  · obtain ⟨hg', hc'⟩ := hgc
    subst hg'; subst hc'
    unfold pairMembers at hp
    rw [hp]
    simp
  · have hrow : (List.filter
        (fun (m : MemberRow) => decide (m.groupId = g' ∧ m.capabilityId = c'))
        [({ groupId := g, capabilityId := c } : MemberRow)]).length = 0 := by
      simp only [List.filter, List.length_nil]
      rw [decide_eq_false (by simpa using hgc)]
      simp
    rw [hrow]
    have hu' := hu g' c'
    unfold pairMembers at hu'
    simpa using hu'

/-- `removeMember` preserves the at-most-one-row-per-pair invariant:
deleting rows never duplicates a pair. -/
theorem uniquePairs_removeMember {s : Store} (g c : String)
    (hu : UniquePairs s) : UniquePairs (removeMember s g c) := by
  intro g' c'
  unfold removeMember
  by_cases hc0 : c = ""
  · rw [if_pos hc0]; exact hu g' c'
  · rw [if_neg hc0]
    unfold pairMembers
    calc (List.filter _ (List.filter _ s.members)).length
        ≤ (List.filter (fun m => decide (m.groupId = g' ∧ m.capabilityId = c'))
            s.members).length :=
          List.Sublist.length_le (List.Sublist.filter _ (List.filter_sublist _))
      _ ≤ 1 := hu g' c'

/-- C8: group membership pairs stay unique — adding a capability to a group
when the (group id, capability id) pair already has a membership row never
succeeds (the route returns an error without inserting), and over every
sequence of add-member and remove-member operations the invariant that each
pair appears at most once in the membership table is preserved. -/
theorem member_pairs_unique :
    (∀ s g c s', pairMembers s g c ≠ [] → addMember s g c ≠ .ok s') ∧
    (∀ ops s, UniquePairs s → UniquePairs (applyMemberOps s ops)) := by
  constructor
  · intro s g c s' hne hok
    exact hne (addMember_ok hok).2
  · intro ops
    induction ops with
    | nil => intro s hu; exact hu
    | cons op tl ih =>
      intro s hu
      unfold applyMemberOps
      rw [List.foldl_cons]
      apply ih
      cases op with
      | add g c =>
        cases hres : addMember s g c with
        | ok s1 =>
          have heq : applyMemberOp s (.add g c) = s1 := by
            simp [applyMemberOp, hres]
          rw [heq]
          exact uniquePairs_addMember hres hu
        | error e =>
          have heq : applyMemberOp s (.add g c) = s := by
            simp [applyMemberOp, hres]
          rw [heq]
          exact hu
      | remove g c =>
        have heq : applyMemberOp s (.remove g c) = removeMember s g c := by
          simp [applyMemberOp]
        rw [heq]
        exact uniquePairs_removeMember g c hu

/-- Store for the first half of the C8 witness: the pair (g1, c1) already
has a membership row. -/
def c8PairStore : Store :=
  { capabilities := [], requests := [], groups := [],
    members := [{ groupId := "g1", capabilityId := "c1" }], nextId := 0 }

/-- Witness for C8 at concrete inputs: adding the already-present pair
(g1, c1) cannot succeed, and two identical adds starting from the empty
store keep every pair at most once. -/
theorem member_pairs_unique_witness :
    (addMember c8PairStore "g1" "c1" ≠ .ok c8PairStore) ∧
    UniquePairs (applyMemberOps emptyStore
      [MemberOp.add "g1" "c1", MemberOp.add "g1" "c1"]) :=
  ⟨member_pairs_unique.1 c8PairStore "g1" "c1" c8PairStore
      (by simp [pairMembers, c8PairStore]),
   member_pairs_unique.2 [MemberOp.add "g1" "c1", MemberOp.add "g1" "c1"]
      emptyStore (by intro g c; simp [pairMembers, emptyStore])⟩

/-- A successful capability creation appends exactly the returned row,
holds the stated fields and leaves the request table unchanged. -/
theorem createCapability_ok {s : Store} {p : String} {r : Resource}
    {a : List Action} {i : String} {cond : Option Conditions}
    {rid : Option String} {now : Nat} {cap : Capability} {s1 : Store}
    (h : createCapability s p r a i cond rid now = .ok (cap, s1)) :
    s1.requests = s.requests ∧ s1.capabilities = s.capabilities ++ [cap] ∧
    cap.principal = p ∧ cap.resource = r ∧
    (∀ x, x ∈ cap.actions ↔ x ∈ a) := by
  unfold createCapability at h
  by_cases ha : a = []
  · rw [if_pos ha] at h; cases h
  · rw [if_neg ha] at h
    cases h
    exact ⟨rfl, rfl, rfl, rfl, fun x => List.mem_dedup⟩

/-- Updating request rows by id commutes with the find?-by-id lookup,
because the update preserves each row's id. -/
theorem find?_id_map (f : CapabilityRequest → CapabilityRequest)
    (hf : ∀ r, (f r).id = r.id) (l : List CapabilityRequest) (rid : String) :
    (l.map f).find? (fun r => r.id = rid) =
      (l.find? (fun r => r.id = rid)).map f := by
  induction l with
  | nil => rfl
  | cons hd tl ih =>
    by_cases hh : hd.id = rid
    · rw [List.map_cons,
          List.find?_cons_of_pos _ (by simpa [hf hd] using hh),
          List.find?_cons_of_pos _ (by simpa using hh)]
      rfl
    · rw [List.map_cons,
          List.find?_cons_of_neg _ (by simpa [hf hd] using hh),
          List.find?_cons_of_neg _ (by simpa using hh)]
      exact ih

/-- Effect of a request-status update on the status read back for any
request id present in the store. -/
theorem requestStatus_update (s : Store) (rid₀ rid : String) (st : ReqStatus)
    (req : CapabilityRequest) (h : getCapabilityRequest s rid = some req) :
    requestStatus (updateCapabilityRequestStatus s rid₀ st) rid =
      some (if req.id = rid₀ then st else req.status) := by
  unfold requestStatus getCapabilityRequest updateCapabilityRequestStatus
  rw [find?_id_map _ (fun r => by by_cases h0 : r.id = rid₀ <;> simp [h0]) _ _]
  unfold getCapabilityRequest at h
  rw [h]
  by_cases h0 : req.id = rid₀ <;> simp [h0]

/-- Characterization of a successful creation step of an approve: the
request existed with pending status and the capability creation
succeeded. -/
theorem approveCreateStep_ok {a rid : String} {cond : Option Conditions}
    {now : Nat} {s : Store} {cap : Capability} {s2 : Store}
    (h : approveCreateStep a rid cond now s = .ok (cap, s2)) :
    ∃ req, getCapabilityRequest s rid = some req ∧ req.status = .pending ∧
      createCapability s req.requester_principal req.resource req.actions a
        cond (some rid) now = .ok (cap, s2) := by
  unfold approveCreateStep at h
  cases hg : getCapabilityRequest s rid with
  | none => rw [hg] at h; cases h
  | some req =>
    simp only [hg] at h
    by_cases hp : req.status = .pending
    · rw [if_pos hp] at h
      exact ⟨req, rfl, hp, h⟩
    · rw [if_neg hp] at h; cases h

/-- Characterization of a successful approve: it is the creation step
followed by the status flip to approved. -/
theorem approveCapabilityRequest_ok {a rid : String} {cond : Option Conditions}
    {now : Nat} {s : Store} {cid : String} {s1 : Store}
    (h : approveCapabilityRequest a rid cond now s = .ok (cid, s1)) :
    ∃ cap s2, approveCreateStep a rid cond now s = .ok (cap, s2) ∧
      cid = cap.id ∧ s1 = updateCapabilityRequestStatus s2 rid .approved := by
  unfold approveCapabilityRequest at h
  cases hcs : approveCreateStep a rid cond now s with
  | error e => rw [hcs] at h; cases h
  | ok pr =>
    obtain ⟨cap, s2⟩ := pr
    rw [hcs] at h
    cases h
    exact ⟨cap, s2, rfl, rfl, rfl⟩

/-- Characterization of a successful reject: the request existed pending
and only its status changed, to rejected. -/
theorem rejectCapabilityRequest_ok {rj rid : String} {s s1 : Store}
    (h : rejectCapabilityRequest rj rid s = .ok s1) :
    ∃ req, getCapabilityRequest s rid = some req ∧ req.status = .pending ∧
      s1 = updateCapabilityRequestStatus s rid .rejected := by
  unfold rejectCapabilityRequest at h
  cases hg : getCapabilityRequest s rid with
  | none => rw [hg] at h; cases h
  | some req =>
    simp only [hg] at h
    by_cases hp : req.status = .pending
    · rw [if_pos hp] at h
      cases h
      exact ⟨req, rfl, hp, rfl⟩
    · rw [if_neg hp] at h; cases h

/-- One management operation moves a request's status only along the
transitions of the three-state machine. -/
theorem status_step (op : MgmtOp) (s : Store) (rid : String) (st : ReqStatus)
    (h : requestStatus s rid = some st) :
    ∃ st', requestStatus (applyMgmtOp s op) rid = some st' ∧
      (st' = st ∨ (st = .pending ∧ (st' = .approved ∨ st' = .rejected))) := by
  obtain ⟨req, hgr, hst⟩ :
      ∃ req, getCapabilityRequest s rid = some req ∧ req.status = st := by
    unfold requestStatus at h
    cases hx : getCapabilityRequest s rid with
    | none => rw [hx] at h; cases h
    | some r => rw [hx] at h; exact ⟨r, rfl, by injection h⟩
  have hrid : req.id = rid := by
    have := List.find?_some hgr
    simpa using this
  cases op with
  | approve a rid₀ cond now =>
    cases hres : approveCapabilityRequest a rid₀ cond now s with
    | error e =>
      refine ⟨st, ?_, Or.inl rfl⟩
      have heq : applyMgmtOp s (.approve a rid₀ cond now) = s := by
        simp [applyMgmtOp, hres]
      rw [heq]
      exact h
    | ok pr =>
      obtain ⟨cid, s1⟩ := pr
      have happ : applyMgmtOp s (.approve a rid₀ cond now) = s1 := by
        simp [applyMgmtOp, hres]
      rw [happ]
      obtain ⟨cap, s2, hcs, hcid, hs1⟩ := approveCapabilityRequest_ok hres
      obtain ⟨req₀, hg₀, hp₀, hcreate⟩ := approveCreateStep_ok hcs
      have hreq2 : getCapabilityRequest s2 rid = some req := by
        unfold getCapabilityRequest at hgr ⊢
        rw [(createCapability_ok hcreate).1]
        exact hgr
      subst hs1
      refine ⟨if req.id = rid₀ then .approved else req.status,
        requestStatus_update s2 rid₀ rid .approved req hreq2, ?_⟩
      by_cases hid : req.id = rid₀
      · rw [if_pos hid]
        right
        refine ⟨?_, Or.inl rfl⟩
        have hr : rid = rid₀ := by rw [← hrid]; exact hid
        subst hr
        have hreq0 : req₀ = req := by
          rw [hg₀] at hgr
          injection hgr
        rw [← hst, ← hreq0]
        exact hp₀
      · rw [if_neg hid]
        exact Or.inl hst
  | reject rj rid₀ =>
    cases hres : rejectCapabilityRequest rj rid₀ s with
    | error e =>
      refine ⟨st, ?_, Or.inl rfl⟩
      have heq : applyMgmtOp s (.reject rj rid₀) = s := by
        simp [applyMgmtOp, hres]
      rw [heq]
      exact h
    | ok s1 =>
      have happ : applyMgmtOp s (.reject rj rid₀) = s1 := by
        simp [applyMgmtOp, hres]
      rw [happ]
      obtain ⟨req₀, hg₀, hp₀, hs1⟩ := rejectCapabilityRequest_ok hres
      subst hs1
      refine ⟨if req.id = rid₀ then .rejected else req.status,
        requestStatus_update s rid₀ rid .rejected req hgr, ?_⟩
      by_cases hid : req.id = rid₀
      · rw [if_pos hid]
        right
        refine ⟨?_, Or.inr rfl⟩
        have hr : rid = rid₀ := by rw [← hrid]; exact hid
        subst hr
        have hreq0 : req₀ = req := by
          rw [hg₀] at hgr
          injection hgr
        rw [← hst, ← hreq0]
        exact hp₀
      · rw [if_neg hid]
        exact Or.inl hst

/-- Over any sequence of management operations the status follows the
machine: it either stays or moves from pending to a terminal state. -/
theorem status_steps (ops : List MgmtOp) (s : Store) (rid : String)
    (st : ReqStatus) (h : requestStatus s rid = some st) :
    ∃ st', requestStatus (applyMgmtOps s ops) rid = some st' ∧
      (st' = st ∨ (st = .pending ∧ (st' = .approved ∨ st' = .rejected))) := by
  induction ops generalizing s st with
  | nil => exact ⟨st, h, Or.inl rfl⟩
  | cons op tl ih =>
    obtain ⟨st1, h1, hr1⟩ := status_step op s rid st h
    have hfold : applyMgmtOps s (op :: tl) = applyMgmtOps (applyMgmtOp s op) tl := by
      unfold applyMgmtOps
      rw [List.foldl_cons]
    rw [hfold]
    obtain ⟨st2, h2, hr2⟩ := ih (applyMgmtOp s op) st1 h1
    refine ⟨st2, h2, ?_⟩
    rcases hr1 with he1 | ⟨hp1, hd1⟩
    · subst he1
      exact hr2
    · rcases hr2 with he2 | ⟨hp2, hd2⟩
      · subst he2
        exact Or.inr ⟨hp1, hd1⟩
      · rcases hd1 with ha | hb
        · exact absurd (ha.symm.trans hp2) (by decide)
        · exact absurd (hb.symm.trans hp2) (by decide)

/-- C4: the request status is a three-state machine with terminal ends —
over every sequence of approve and reject operations a stored request's
status either stays what it was or moves from pending to approved or
rejected (so no transition leaves a terminal state), and approve or reject
applied to a non-pending request fails with InvalidState (the store is not
written, so the status is unchanged); in particular a second approve on an
approved request and an approve on a rejected request both fail. -/
theorem request_state_machine :
    (∀ (ops : List MgmtOp) (s : Store) (rid : String) (st st' : ReqStatus),
        requestStatus s rid = some st →
        requestStatus (applyMgmtOps s ops) rid = some st' →
        (st' = st ∨ (st = .pending ∧ (st' = .approved ∨ st' = .rejected)))) ∧
    (∀ (a rj : String) (cond : Option Conditions) (now : Nat) (rid : String)
        (s : Store) (req : CapabilityRequest),
        getCapabilityRequest s rid = some req → ¬ req.status = .pending →
        approveCapabilityRequest a rid cond now s = .error .invalidState ∧
        rejectCapabilityRequest rj rid s = .error .invalidState) := by
  constructor
  · intro ops s rid st st' h h'
    obtain ⟨st2, h2, hr⟩ := status_steps ops s rid st h
    rw [h2] at h'
    injection h' with h'
    subst h'
    exact hr
  · intro a rj cond now rid s req hg hnp
    constructor
    · unfold approveCapabilityRequest approveCreateStep
      simp only [hg]
      rw [if_neg hnp]
    · unfold rejectCapabilityRequest
      simp only [hg]
      rw [if_neg hnp]

/-- An already-approved request, for the C4 witness. -/
def c4Req : CapabilityRequest :=
  { id := "r1", requester_principal := "user:bob", resource := rProjects,
    actions := [.read], ownerId := "user:alice", status := .approved }

/-- Store holding the approved request. -/
def c4Store : Store :=
  { capabilities := [], requests := [c4Req], groups := [], members := [],
    nextId := 0 }

/-- Witness for C4 at a concrete input: approve and reject on the
already-approved request `r1` both fail with InvalidState. -/
theorem request_state_machine_witness :
    approveCapabilityRequest "user:adm" "r1" none 0 c4Store
      = .error .invalidState ∧
    rejectCapabilityRequest "user:adm" "r1" c4Store = .error .invalidState :=
  request_state_machine.2 "user:adm" "user:adm" none 0 "r1" c4Store c4Req
    rfl (by decide)

/-- C5: approve on a pending request creates exactly one capability — held
by the request's requester, covering the request's resource and requested
actions — and only afterwards flips the status to approved: the
intermediate store produced by the creation step still has the request
pending (an interruption there leaves a pending request plus an orphan
capability, never an approved request without its capability), and the
final store has the request approved.  The request's action list must be
non-empty, since the store rejects creating a capability with an empty
action set. -/
theorem approve_creates_then_transitions (approver rid : String)
    (cond : Option Conditions) (now : Nat) (s : Store)
    (req : CapabilityRequest) (hreq : getCapabilityRequest s rid = some req)
    (hpend : req.status = .pending) (hacts : ¬ req.actions = []) :
    ∃ cap s1,
      approveCreateStep approver rid cond now s = .ok (cap, s1) ∧
      s1.capabilities = s.capabilities ++ [cap] ∧
      requestStatus s1 rid = some .pending ∧
      cap.principal = req.requester_principal ∧
      cap.resource = req.resource ∧
      (∀ x, x ∈ cap.actions ↔ x ∈ req.actions) ∧
      approveCapabilityRequest approver rid cond now s =
        .ok (cap.id, updateCapabilityRequestStatus s1 rid .approved) ∧
      requestStatus (updateCapabilityRequestStatus s1 rid .approved) rid =
        some .approved := by
  cases hc : createCapability s req.requester_principal req.resource
      req.actions approver cond (some rid) now with
  | error e =>
    exfalso
    unfold createCapability at hc
    rw [if_neg hacts] at hc
    cases hc
  | ok pr =>
    obtain ⟨cap, s1⟩ := pr
    obtain ⟨hreqs, hcaps, hprin, hres, hact⟩ := createCapability_ok hc
    have hstep : approveCreateStep approver rid cond now s = .ok (cap, s1) := by
      unfold approveCreateStep
      simp only [hreq]
      rw [if_pos hpend]
      exact hc
    have hrid : req.id = rid := by
      have := List.find?_some hreq
      simpa using this
    have hreq1 : getCapabilityRequest s1 rid = some req := by
      unfold getCapabilityRequest at hreq ⊢
      rw [hreqs]
      exact hreq
    refine ⟨cap, s1, hstep, hcaps, ?_, hprin, hres, hact, ?_, ?_⟩
    · unfold requestStatus
      rw [hreq1]
      simp [hpend]
    · unfold approveCapabilityRequest
      simp only [hstep]
    · rw [requestStatus_update s1 rid rid .approved req hreq1]
      simp [hrid]

/-- A pending request, for the C5 witness. -/
def c5Req : CapabilityRequest :=
  { id := "r2", requester_principal := "user:bob", resource := rProjects,
    actions := [.read], ownerId := "user:alice", status := .pending }

/-- Store holding the pending request. -/
def c5Store : Store :=
  { capabilities := [], requests := [c5Req], groups := [], members := [],
    nextId := 0 }

/-- Witness for C5 at a concrete input: approving the pending request `r2`
creates the capability first and flips the status afterwards. -/
theorem approve_creates_then_transitions_witness :
    ∃ cap s1,
      approveCreateStep "user:adm" "r2" none 7 c5Store = .ok (cap, s1) ∧
      s1.capabilities = c5Store.capabilities ++ [cap] ∧
      requestStatus s1 "r2" = some .pending ∧
      cap.principal = c5Req.requester_principal ∧
      cap.resource = c5Req.resource ∧
      (∀ x, x ∈ cap.actions ↔ x ∈ c5Req.actions) ∧
      approveCapabilityRequest "user:adm" "r2" none 7 c5Store =
        .ok (cap.id, updateCapabilityRequestStatus s1 "r2" .approved) ∧
      requestStatus (updateCapabilityRequestStatus s1 "r2" .approved) "r2" =
        some .approved :=
  approve_creates_then_transitions "user:adm" "r2" none 7 c5Store c5Req
    rfl rfl (by decide)

end Hominio
